import Mathlib

/-!
Shallow embedding of the sized_number crate: a bounds-checked cursor over an
immutable byte buffer (src/context.rs, and the Context alias of src/lib.rs),
the SizedDefinition numeric-shape enumeration with its read, to_u64 and to_i64
conversions, and the display formatters (src/lib.rs).

Bytes are modelled as Nat (with explicit bounds where byte validity matters),
machine integers as Nat or Int, and fallible reads as Option.
-/

namespace SizedNumber

/-- Endianness for multi-byte reads (src/lib.rs, src/context.rs). -/
inductive Endian where
  | Big
  | Little

/-- Cursor over an immutable byte buffer: models std::io::Cursor over a borrowed
byte vector, the type behind both the Context alias of src/lib.rs and the
Context struct of src/context.rs. It pairs the byte sequence with a read
position; the position may lie past the end of the buffer. -/
structure Context where
  data : List Nat
  pos : Nat

/-- Translation of new_context in src/lib.rs: build a cursor at the given
offset; no checking happens here, an out-of-range offset only makes later
reads fail. -/
def new_context (v : List Nat) (offset : Nat) : Context :=
  ⟨v, offset⟩

/-- Translation of Context::new in src/context.rs: cursor at position 0. -/
def Context.new (v : List Nat) : Context :=
  ⟨v, 0⟩

/-- Translation of Context::new_at in src/context.rs. -/
def Context.new_at (v : List Nat) (index : Nat) : Context :=
  ⟨v, index⟩

/-- Translation of Context::position in src/context.rs. -/
def Context.position (c : Context) : Nat :=
  c.pos

/-- Number of bytes available between the cursor position and the end of the
buffer; zero when the position lies past the end, matching the clamping
performed by the std::io::Cursor Read implementation. -/
def Context.avail (c : Context) : Nat :=
  c.data.length - c.pos

/-- Bytes a read of width k consumes: the k bytes starting at the cursor
position. -/
def bytesAt (c : Context) (k : Nat) : List Nat :=
  (c.data.drop c.pos).take k

/-- Models a read of exactly k bytes on a std::io::Cursor, as byteorder's
fixed-width reads and read_exact perform it: the k bytes at the current
position are returned and the position advances by k, or the call fails when
fewer than k bytes remain. -/
def advanceRead (c : Context) (k : Nat) : Option (List Nat × Context) :=
  if k ≤ c.avail then
    some (bytesAt c k, ⟨c.data, c.pos + k⟩)
  else
    none

/-- Big-endian byte assembly as byteorder performs it: most significant byte
first, each step shifting the accumulator by one byte. -/
def fromBytesBE (bs : List Nat) : Nat :=
  bs.foldl (fun acc b => acc * 256 + b) 0

/-- Assembly of a byte run under the chosen byte order. -/
def assemble (e : Endian) (bs : List Nat) : Nat :=
  match e with
  | .Big => fromBytesBE bs
  | .Little => fromBytesBE bs.reverse

/-- Two's-complement reinterpretation of an unsigned bit pattern of the given
bit width, modelling the unsigned-to-signed transmutation inside byteorder's
signed reads. -/
def toSigned (bits u : Nat) : Int :=
  if u < 2 ^ (bits - 1) then (u : Int) else (u : Int) - 2 ^ bits

/-- Shared shape of every Context read method in src/context.rs (and of the
context.clone().read_* calls in src/lib.rs): the receiver is borrowed
immutably, the inner cursor is cloned, the clone is read and advanced, and the
advanced clone is discarded. The second component is the receiver after the
call. -/
def Context.read_unsigned (c : Context) (w : Nat) (endian : Endian) : Option Nat × Context :=
  match advanceRead c w with
  | some (bs, _advancedClone) => (some (assemble endian bs), c)
  | none => (none, c)

/-- Shared shape of the signed reads: read the bytes unsigned, then
reinterpret the bit pattern in two's complement, as byteorder's read_i* do. -/
def Context.read_signed (c : Context) (w : Nat) (endian : Endian) : Option Int × Context :=
  match advanceRead c w with
  | some (bs, _advancedClone) => (some (toSigned (8 * w) (assemble endian bs)), c)
  | none => (none, c)

/-- Translation of Context::read_u8. A single byte has no byte order. -/
def Context.read_u8 (c : Context) : Option Nat × Context :=
  c.read_unsigned 1 .Big

/-- Translation of Context::read_u16. -/
def Context.read_u16 (c : Context) (endian : Endian) : Option Nat × Context :=
  c.read_unsigned 2 endian

/-- Translation of Context::read_u32. -/
def Context.read_u32 (c : Context) (endian : Endian) : Option Nat × Context :=
  c.read_unsigned 4 endian

/-- Translation of Context::read_u64. -/
def Context.read_u64 (c : Context) (endian : Endian) : Option Nat × Context :=
  c.read_unsigned 8 endian

/-- Translation of Context::read_u128. -/
def Context.read_u128 (c : Context) (endian : Endian) : Option Nat × Context :=
  c.read_unsigned 16 endian

/-- Translation of Context::read_i8. -/
def Context.read_i8 (c : Context) : Option Int × Context :=
  c.read_signed 1 .Big

/-- Translation of Context::read_i16. -/
def Context.read_i16 (c : Context) (endian : Endian) : Option Int × Context :=
  c.read_signed 2 endian

/-- Translation of Context::read_i32. -/
def Context.read_i32 (c : Context) (endian : Endian) : Option Int × Context :=
  c.read_signed 4 endian

/-- Translation of Context::read_i64. -/
def Context.read_i64 (c : Context) (endian : Endian) : Option Int × Context :=
  c.read_signed 8 endian

/-- Translation of Context::read_i128. -/
def Context.read_i128 (c : Context) (endian : Endian) : Option Int × Context :=
  c.read_signed 16 endian

/-- Translation of Context::read_f32: byteorder reads the four bytes as a u32
and reinterprets the bit pattern as f32; the embedding keeps the bit
pattern. -/
def Context.read_f32 (c : Context) (endian : Endian) : Option Nat × Context :=
  c.read_unsigned 4 endian

/-- Translation of Context::read_f64: the eight-byte bit pattern. -/
def Context.read_f64 (c : Context) (endian : Endian) : Option Nat × Context :=
  c.read_unsigned 8 endian

/-- Translation of Context::read_bytes in src/context.rs: take(size) followed
by read_to_end reads min(size, available) bytes into a fresh vector, and the
function bails when fewer than size bytes were read. Observably this succeeds
with exactly the size bytes at the position when they are available (always,
for size 0), and fails otherwise. -/
def Context.read_bytes (c : Context) (size : Nat) : Option (List Nat) × Context :=
  match advanceRead c size with
  | some (bs, _advancedClone) => (some bs, c)
  | none => (none, c)

/-- Translation of ScientificOptions in src/lib.rs. -/
structure ScientificOptions where
  uppercase : Bool

/-- Translation of HexOptions in src/lib.rs. The source field for the 0x
marker is named after the marker itself; that word is a Lean keyword, so the
field is called prefixed here. -/
structure HexOptions where
  uppercase : Bool
  prefixed : Bool
  padded : Bool

/-- Translation of BinaryOptions in src/lib.rs. -/
structure BinaryOptions where
  padded : Bool

/-- Translation of the SizedDisplay enum in src/lib.rs. -/
inductive SizedDisplay where
  | Hex (options : HexOptions)
  | Decimal
  | Octal
  | Binary (options : BinaryOptions)
  | Scientific (options : ScientificOptions)

/-- Translation of the SizedDefinition enum in src/lib.rs. -/
inductive SizedDefinition where
  | U8
  | U16 (endian : Endian)
  | U32 (endian : Endian)
  | U64 (endian : Endian)
  | U128 (endian : Endian)
  | I8
  | I16 (endian : Endian)
  | I32 (endian : Endian)
  | I64 (endian : Endian)
  | I128 (endian : Endian)
  | F32 (endian : Endian)
  | F64 (endian : Endian)

/-- Translation of SizedDefinition::size: the fixed byte width of the
variant, a pure function of the tag. -/
def SizedDefinition.size (self : SizedDefinition) : Nat :=
  match self with
  | .U8 => 1
  | .U16 _ => 2
  | .U32 _ => 4
  | .U64 _ => 8
  | .U128 _ => 16
  | .I8 => 1
  | .I16 _ => 2
  | .I32 _ => 4
  | .I64 _ => 8
  | .I128 _ => 16
  | .F32 _ => 4
  | .F64 _ => 8

/-- Least-significant-first base-b digits of n, with explicit fuel so the
recursion is structural; fuel n suffices because each step divides by
b ≥ 2. -/
def digitsRevAux (b : Nat) : Nat → Nat → List Nat
  | _, 0 => []
  | 0, _ + 1 => []
  | n + 1, fuel + 1 => (n + 1) % b :: digitsRevAux b ((n + 1) / b) fuel

/-- Least-significant-first base-b digits of n (empty for n = 0). -/
def digitsRev (b n : Nat) : List Nat :=
  digitsRevAux b n n

/-- Digit characters as Rust's lowercase formatters emit them: 0-9 then
a-f. -/
def digitChar (d : Nat) : Char :=
  if d < 10 then Char.ofNat (48 + d) else Char.ofNat (87 + d)

/-- Most-significant-first digit list without leading zeros; the value 0
renders as the single digit 0, as Rust formatting does. -/
def minimalDigits (b n : Nat) : List Nat :=
  if n = 0 then [0] else (digitsRev b n).reverse

/-- Minimal digit characters of n in base b. -/
def minimalChars (b n : Nat) : List Char :=
  (minimalDigits b n).map digitChar

/-- Zero padding to a minimum field width, as Rust's zero-padded width format
specifiers behave: values already at least that wide keep all their digits. -/
def padLeft (k : Nat) (cs : List Char) : List Char :=
  List.replicate (k - cs.length) '0' ++ cs

/-- Character-wise uppercase conversion, modelling str::to_uppercase; every
string it is applied to in this development is ASCII. -/
def strUpper (s : String) : String :=
  String.mk (s.data.map Char.toUpper)

/-- Translation of display_hex in src/lib.rs. The first argument is the byte
width of the boxed value (what mem::size_of_val returns) and u is the unsigned
bit pattern that the LowerHex implementation of the boxed type prints. The
source builds the digit string (padded to twice the byte width for the widths
in its table, minimal otherwise), then uppercases the whole string on request,
then prepends the lowercase 0x marker on request. -/
def display_hex (w u : Nat) (options : HexOptions) : String :=
  let h : List Char :=
    match options.padded, 2 * w with
    | false, _ => minimalChars 16 u
    | true, 2 => padLeft 2 (minimalChars 16 u)
    | true, 4 => padLeft 4 (minimalChars 16 u)
    | true, 8 => padLeft 8 (minimalChars 16 u)
    | true, 16 => padLeft 16 (minimalChars 16 u)
    | true, 32 => padLeft 32 (minimalChars 16 u)
    | true, _ => minimalChars 16 u
  let h2 : List Char := if options.uppercase then h.map Char.toUpper else h
  String.mk (if options.prefixed then '0' :: 'x' :: h2 else h2)

/-- Translation of display_decimal in src/lib.rs: the Display rendering of the
boxed value; for the integer primitives that is the base-10 digits with a
minus sign for negative signed values, so the embedding takes the mathematical
integer value. -/
def display_decimal (v : Int) : String :=
  if v < 0 then String.mk ('-' :: minimalChars 10 v.natAbs)
  else String.mk (minimalChars 10 v.natAbs)

/-- Translation of display_octal in src/lib.rs: minimal base-8 digits of the
bit pattern, no marker, no padding. -/
def display_octal (u : Nat) : String :=
  String.mk (minimalChars 8 u)

/-- Translation of display_binary in src/lib.rs: minimal base-2 digits, or
zero-extension to the exact bit width of the boxed value for the widths in the
source's table. -/
def display_binary (w u : Nat) (options : BinaryOptions) : String :=
  let h : List Char :=
    match options.padded, 8 * w with
    | false, _ => minimalChars 2 u
    | true, 8 => padLeft 8 (minimalChars 2 u)
    | true, 16 => padLeft 16 (minimalChars 2 u)
    | true, 32 => padLeft 32 (minimalChars 2 u)
    | true, 64 => padLeft 64 (minimalChars 2 u)
    | true, 128 => padLeft 128 (minimalChars 2 u)
    | true, _ => minimalChars 2 u
  String.mk h

/-- Translation of display_scientific in src/lib.rs: the source formats the
boxed value with the lowercase exponential formatter and then uppercases the
whole string when requested. The first argument is that lowercase
rendering. -/
def display_scientific (rendered : String) (options : ScientificOptions) : String :=
  if options.uppercase then strUpper rendered else rendered

/-- Trailing zero digits removed, as Rust's exponential formatter does to the
fractional part of the mantissa. -/
def stripTrailingZeros (ds : List Nat) : List Nat :=
  (ds.reverse.dropWhile (fun d => d == 0)).reverse

/-- Lowercase exponential rendering of an integer, as Rust's LowerExp
implementations for the integer primitives produce it: one leading digit, a
fractional tail with trailing zeros removed, and the exponent equal to the
digit count minus one (value 0 renders as 0e0). -/
def intLowerExp (v : Int) : String :=
  let ds := minimalDigits 10 v.natAbs
  let tail := stripTrailingZeros ds.tail
  String.mk ((if v < 0 then ['-'] else []) ++
    digitChar (ds.headD 0) ::
      ((if tail.isEmpty then [] else '.' :: tail.map digitChar) ++
        'e' :: minimalChars 10 (ds.length - 1)))

/-- Modelled from the spec: the decimal and exponential text of a float is
produced by the platform's native formatter (Rust std), which is outside this
repository. The spec records only that the formatter is total, that
non-finite values render as their NaN and infinity tokens, and that the
exponential form uses a lowercase marker; the model decodes the IEEE-754
classification from the bit pattern exactly and renders finite values from
their raw fields. No claim depends on the digit text of a finite float. -/
def floatRender (ebits fbits bits : Nat) (exponential : Bool) : String :=
  let sign := bits / 2 ^ (ebits + fbits) % 2
  let expo := bits / 2 ^ fbits % 2 ^ ebits
  let frac := bits % 2 ^ fbits
  if expo = 2 ^ ebits - 1 then
    if frac = 0 then (if sign = 1 then "-inf" else "inf") else "NaN"
  else
    String.mk ((if sign = 1 then ['-'] else []) ++
      minimalChars 10 frac ++
        (if exponential then 'e' :: minimalChars 10 expo
         else '.' :: minimalChars 10 expo))

/-- Translation of SizedDefinition::to_string_internal in src/lib.rs: read the
value from a clone of the context, then dispatch on the display mode. A
signed value prints its two's-complement bit pattern under the hex, octal and
binary formatters and its signed value under the decimal and exponential
ones, exactly as the Rust formatting traits of the boxed value behave; floats
reject the hex, octal and binary modes after the read. -/
def SizedDefinition.to_string_internal (self : SizedDefinition) (context : Context)
    (display : SizedDisplay) : Option String :=
  match self with
  | .U8 =>
    match (context.read_u8).1 with
    | none => none
    | some v =>
      match display with
      | .Hex options => some (display_hex 1 v options)
      | .Decimal => some (display_decimal v)
      | .Octal => some (display_octal v)
      | .Binary options => some (display_binary 1 v options)
      | .Scientific options => some (display_scientific (intLowerExp v) options)
  | .U16 endian =>
    match (context.read_u16 endian).1 with
    | none => none
    | some v =>
      match display with
      | .Hex options => some (display_hex 2 v options)
      | .Decimal => some (display_decimal v)
      | .Octal => some (display_octal v)
      | .Binary options => some (display_binary 2 v options)
      | .Scientific options => some (display_scientific (intLowerExp v) options)
  | .U32 endian =>
    match (context.read_u32 endian).1 with
    | none => none
    | some v =>
      match display with
      | .Hex options => some (display_hex 4 v options)
      | .Decimal => some (display_decimal v)
      | .Octal => some (display_octal v)
      | .Binary options => some (display_binary 4 v options)
      | .Scientific options => some (display_scientific (intLowerExp v) options)
  | .U64 endian =>
    match (context.read_u64 endian).1 with
    | none => none
    | some v =>
      match display with
      | .Hex options => some (display_hex 8 v options)
      | .Decimal => some (display_decimal v)
      | .Octal => some (display_octal v)
      | .Binary options => some (display_binary 8 v options)
      | .Scientific options => some (display_scientific (intLowerExp v) options)
  | .U128 endian =>
    match (context.read_u128 endian).1 with
    | none => none
    | some v =>
      match display with
      | .Hex options => some (display_hex 16 v options)
      | .Decimal => some (display_decimal v)
      | .Octal => some (display_octal v)
      | .Binary options => some (display_binary 16 v options)
      | .Scientific options => some (display_scientific (intLowerExp v) options)
  | .I8 =>
    match (context.read_i8).1 with
    | none => none
    | some v =>
      match display with
      | .Hex options => some (display_hex 1 ((v % (2 : Int) ^ 8).toNat) options)
      | .Decimal => some (display_decimal v)
      | .Octal => some (display_octal ((v % (2 : Int) ^ 8).toNat))
      | .Binary options => some (display_binary 1 ((v % (2 : Int) ^ 8).toNat) options)
      | .Scientific options => some (display_scientific (intLowerExp v) options)
  | .I16 endian =>
    match (context.read_i16 endian).1 with
    | none => none
    | some v =>
      match display with
      | .Hex options => some (display_hex 2 ((v % (2 : Int) ^ 16).toNat) options)
      | .Decimal => some (display_decimal v)
      | .Octal => some (display_octal ((v % (2 : Int) ^ 16).toNat))
      | .Binary options => some (display_binary 2 ((v % (2 : Int) ^ 16).toNat) options)
      | .Scientific options => some (display_scientific (intLowerExp v) options)
  | .I32 endian =>
    match (context.read_i32 endian).1 with
    | none => none
    | some v =>
      match display with
      | .Hex options => some (display_hex 4 ((v % (2 : Int) ^ 32).toNat) options)
      | .Decimal => some (display_decimal v)
      | .Octal => some (display_octal ((v % (2 : Int) ^ 32).toNat))
      | .Binary options => some (display_binary 4 ((v % (2 : Int) ^ 32).toNat) options)
      | .Scientific options => some (display_scientific (intLowerExp v) options)
  | .I64 endian =>
    match (context.read_i64 endian).1 with
    | none => none
    | some v =>
      match display with
      | .Hex options => some (display_hex 8 ((v % (2 : Int) ^ 64).toNat) options)
      | .Decimal => some (display_decimal v)
      | .Octal => some (display_octal ((v % (2 : Int) ^ 64).toNat))
      | .Binary options => some (display_binary 8 ((v % (2 : Int) ^ 64).toNat) options)
      | .Scientific options => some (display_scientific (intLowerExp v) options)
  | .I128 endian =>
    match (context.read_i128 endian).1 with
    | none => none
    | some v =>
      match display with
      | .Hex options => some (display_hex 16 ((v % (2 : Int) ^ 128).toNat) options)
      | .Decimal => some (display_decimal v)
      | .Octal => some (display_octal ((v % (2 : Int) ^ 128).toNat))
      | .Binary options => some (display_binary 16 ((v % (2 : Int) ^ 128).toNat) options)
      | .Scientific options => some (display_scientific (intLowerExp v) options)
  | .F32 endian =>
    match (context.read_f32 endian).1 with
    | none => none
    | some bits =>
      match display with
      | .Hex _ => none
      | .Decimal => some (floatRender 8 23 bits false)
      | .Octal => none
      | .Binary _ => none
      | .Scientific options => some (display_scientific (floatRender 8 23 bits true) options)
  | .F64 endian =>
    match (context.read_f64 endian).1 with
    | none => none
    | some bits =>
      match display with
      | .Hex _ => none
      | .Decimal => some (floatRender 11 52 bits false)
      | .Octal => none
      | .Binary _ => none
      | .Scientific options => some (display_scientific (floatRender 11 52 bits true) options)

/-- Translation of SizedDefinition::to_string in src/lib.rs, which only
re-wraps the internal error into the caller-facing error type. -/
def SizedDefinition.to_string (self : SizedDefinition) (context : Context)
    (display : SizedDisplay) : Option String :=
  self.to_string_internal context display

/-- Translation of SizedDefinition::to_u64 in src/lib.rs: the unsigned
variants of width at most eight read and widen (the Rust cast from a narrower
unsigned type to u64 preserves the value); every other variant fails without
touching the buffer. -/
def SizedDefinition.to_u64 (self : SizedDefinition) (context : Context) : Option Nat :=
  match self with
  | .U8 => (context.read_u8).1
  | .U16 endian => (context.read_u16 endian).1
  | .U32 endian => (context.read_u32 endian).1
  | .U64 endian => (context.read_u64 endian).1
  | .U128 _ => none
  | .I8 => none
  | .I16 _ => none
  | .I32 _ => none
  | .I64 _ => none
  | .I128 _ => none
  | .F32 _ => none
  | .F64 _ => none

/-- Translation of SizedDefinition::to_i64 in src/lib.rs: the signed variants
of width at most eight read with the signed primitive and widen (the Rust cast
from a narrower signed type to i64 sign-extends, preserving the mathematical
value); every other variant fails without touching the buffer. -/
def SizedDefinition.to_i64 (self : SizedDefinition) (context : Context) : Option Int :=
  match self with
  | .U8 => none
  | .U16 _ => none
  | .U32 _ => none
  | .U64 _ => none
  | .U128 _ => none
  | .I8 => (context.read_i8).1
  | .I16 endian => (context.read_i16 endian).1
  | .I32 endian => (context.read_i32 endian).1
  | .I64 endian => (context.read_i64 endian).1
  | .I128 _ => none
  | .F32 _ => none
  | .F64 _ => none

/-! Helper lemmas about the digit machinery. -/

theorem digitsRevAux_zero (b fuel : Nat) : digitsRevAux b 0 fuel = [] := by
  cases fuel <;> rfl

theorem digitsRevAux_fuelEq (b : Nat) (hb : 2 ≤ b) :
    ∀ n f1 f2, n ≤ f1 → n ≤ f2 → digitsRevAux b n f1 = digitsRevAux b n f2 := by
  intro n
  induction n using Nat.strong_induction_on with
  | _ n ih =>
    intro f1 f2 h1 h2
    cases n with
    | zero => rw [digitsRevAux_zero, digitsRevAux_zero]
    | succ m =>
      cases f1 with
      | zero => exact absurd h1 (by omega)
      | succ g1 =>
        cases f2 with
        | zero => exact absurd h2 (by omega)
        | succ g2 =>
          have hdiv : (m + 1) / b < m + 1 := Nat.div_lt_self (Nat.succ_pos m) hb
          simp only [digitsRevAux]
          rw [ih ((m + 1) / b) hdiv g1 g2 (by omega) (by omega)]

theorem digitsRev_zero (b : Nat) : digitsRev b 0 = [] := rfl

theorem digitsRev_succ (b : Nat) (hb : 2 ≤ b) (n : Nat) (hn : 0 < n) :
    digitsRev b n = n % b :: digitsRev b (n / b) := by
  cases n with
  | zero => omega
  | succ m =>
    show digitsRevAux b (m + 1) (m + 1) = _
    have hdiv : (m + 1) / b < m + 1 := Nat.div_lt_self (Nat.succ_pos m) hb
    simp only [digitsRevAux]
    rw [digitsRevAux_fuelEq b hb ((m + 1) / b) m ((m + 1) / b) (by omega) le_rfl]
    rfl

theorem digitsRev_length_le (b : Nat) (hb : 2 ≤ b) :
    ∀ k n, n < b ^ k → (digitsRev b n).length ≤ k := by
  intro k
  induction k with
  | zero =>
    intro n hn
    have : n = 0 := by simpa using hn
    subst this
    simp [digitsRev_zero]
  | succ k ih =>
    intro n hn
    by_cases h0 : n = 0
    · subst h0; simp [digitsRev_zero]
    · rw [digitsRev_succ b hb n (Nat.pos_of_ne_zero h0)]
      simp only [List.length_cons]
      have hdiv : n / b < b ^ k := by
        have hb0 : 0 < b := by omega
        exact (Nat.div_lt_iff_lt_mul hb0).mpr (by rw [← pow_succ]; exact hn)
      exact Nat.succ_le_succ (ih _ hdiv)

theorem digitsRevAux_mem_lt (b : Nat) (hb : 0 < b) :
    ∀ fuel n d, d ∈ digitsRevAux b n fuel → d < b := by
  intro fuel
  induction fuel with
  | zero =>
    intro n d h
    rw [show digitsRevAux b n 0 = [] from by cases n <;> rfl] at h
    simp at h
  | succ f ih =>
    intro n d h
    cases n with
    | zero => rw [digitsRevAux_zero] at h; simp at h
    | succ m =>
      simp only [digitsRevAux, List.mem_cons] at h
      rcases h with h | h
      · subst h; exact Nat.mod_lt _ hb
      · exact ih _ _ h

theorem minimalDigits_mem_lt (b u : Nat) (hb : 2 ≤ b) :
    ∀ d ∈ minimalDigits b u, d < b := by
  intro d hd
  unfold minimalDigits at hd
  split at hd
  · simp at hd; omega
  · rw [List.mem_reverse] at hd
    exact digitsRevAux_mem_lt b (by omega) _ _ _ hd

theorem minimalChars_length_le (b u k : Nat) (hb : 2 ≤ b) (hk : 1 ≤ k)
    (hu : u < b ^ k) : (minimalChars b u).length ≤ k := by
  unfold minimalChars minimalDigits
  split
  · simpa using hk
  · simp only [List.length_map, List.length_reverse]
    exact digitsRev_length_le b hb k u hu

theorem minimalChars_zero (b : Nat) : minimalChars b 0 = ['0'] := by
  unfold minimalChars minimalDigits
  simp [digitChar]

theorem padLeft_length (k : Nat) (cs : List Char) (h : cs.length ≤ k) :
    (padLeft k cs).length = k := by
  unfold padLeft
  simp only [List.length_append, List.length_replicate]
  omega

theorem padLeft_zero (cs : List Char) : padLeft 0 cs = cs := by
  unfold padLeft
  simp

theorem padLeft_single_zero (k : Nat) (hk : 1 ≤ k) :
    padLeft k ['0'] = List.replicate k '0' := by
  unfold padLeft
  cases k with
  | zero => omega
  | succ n =>
    simp only [List.length_singleton, Nat.add_sub_cancel]
    exact (List.replicate_succ' n '0').symm

theorem data_stringMk (cs : List Char) : (String.mk cs).data = cs := rfl

theorem length_stringMk (cs : List Char) : (String.mk cs).length = cs.length := rfl

theorem digitChar_props : ∀ d, d < 16 → digitChar d ≠ '-' ∧ (digitChar d).toUpper ≠ '-' := by
  decide

theorem mem_minimalChars (b u : Nat) (hb : 2 ≤ b) (hb16 : b ≤ 16) :
    ∀ ch ∈ minimalChars b u, ∃ d, d < 16 ∧ ch = digitChar d := by
  intro ch hch
  unfold minimalChars at hch
  rcases List.mem_map.mp hch with ⟨d, hd, rfl⟩
  exact ⟨d, lt_of_lt_of_le (minimalDigits_mem_lt b u hb d hd) hb16, rfl⟩

theorem noMinus_padCore (b k u : Nat) (hb : 2 ≤ b) (hb16 : b ≤ 16) :
    ∀ ch ∈ padLeft k (minimalChars b u), ch ≠ '-' ∧ ch.toUpper ≠ '-' := by
  intro ch hch
  unfold padLeft at hch
  rcases List.mem_append.mp hch with hrep | hdig
  · have h0 : ch = '0' := List.eq_of_mem_replicate hrep
    subst h0
    exact ⟨by decide, by decide⟩
  · rcases mem_minimalChars b u hb hb16 ch hdig with ⟨d, hd, rfl⟩
    exact digitChar_props d hd

/-! Helper lemmas about the cursor reads. -/

theorem advanceRead_eq_some (c : Context) (k : Nat) (h : k ≤ c.avail) :
    advanceRead c k = some (bytesAt c k, ⟨c.data, c.pos + k⟩) := by
  unfold advanceRead
  rw [if_pos h]

theorem advanceRead_eq_none (c : Context) (k : Nat) (h : ¬ k ≤ c.avail) :
    advanceRead c k = none := by
  unfold advanceRead
  rw [if_neg h]

theorem read_unsigned_fst (c : Context) (w : Nat) (e : Endian) :
    (c.read_unsigned w e).1 =
      if w ≤ c.avail then some (assemble e (bytesAt c w)) else none := by
  unfold Context.read_unsigned
  by_cases h : w ≤ c.avail
  · rw [advanceRead_eq_some c w h, if_pos h]
  · rw [advanceRead_eq_none c w h, if_neg h]

theorem read_signed_fst (c : Context) (w : Nat) (e : Endian) :
    (c.read_signed w e).1 =
      if w ≤ c.avail then some (toSigned (8 * w) (assemble e (bytesAt c w))) else none := by
  unfold Context.read_signed
  by_cases h : w ≤ c.avail
  · rw [advanceRead_eq_some c w h, if_pos h]
  · rw [advanceRead_eq_none c w h, if_neg h]

theorem read_unsigned_snd (c : Context) (w : Nat) (e : Endian) :
    (c.read_unsigned w e).2 = c := by
  unfold Context.read_unsigned
  cases h : advanceRead c w with
  | none => rfl
  | some p =>
    obtain ⟨bs, cx⟩ := p
    rfl

theorem read_signed_snd (c : Context) (w : Nat) (e : Endian) :
    (c.read_signed w e).2 = c := by
  unfold Context.read_signed
  cases h : advanceRead c w with
  | none => rfl
  | some p =>
    obtain ⟨bs, cx⟩ := p
    rfl

theorem read_bytes_snd (c : Context) (k : Nat) : (c.read_bytes k).2 = c := by
  unfold Context.read_bytes
  cases h : advanceRead c k with
  | none => rfl
  | some p =>
    obtain ⟨bs, cx⟩ := p
    rfl

theorem le_avail_iff (c : Context) (k : Nat) (hk : 0 < k) :
    k ≤ c.avail ↔ c.pos + k ≤ c.data.length := by
  unfold Context.avail
  omega

theorem bytesAt_length (c : Context) (k : Nat) (h : c.pos + k ≤ c.data.length) :
    (bytesAt c k).length = k := by
  unfold bytesAt
  simp only [List.length_take, List.length_drop]
  omega

theorem bytesAt_mem_lt (c : Context) (k : Nat) (hvalid : ∀ b ∈ c.data, b < 256) :
    ∀ b ∈ bytesAt c k, b < 256 := by
  intro b hb
  unfold bytesAt at hb
  exact hvalid b (List.drop_subset _ _ (List.take_subset _ _ hb))

/-! Spec-side formulation of the encoded value, and its agreement with the
byteorder-style assembly. -/

/-- Unsigned integer a byte run encodes: the positional base-256 value, in
the independent Mathlib formulation (ofDigits is least-significant-first, so
big-endian byte runs are reversed). -/
def encoded (e : Endian) (bs : List Nat) : Nat :=
  match e with
  | .Big => Nat.ofDigits 256 bs.reverse
  | .Little => Nat.ofDigits 256 bs

/-- Two's-complement value a byte run encodes at a given bit width. -/
def signedValue (e : Endian) (bits : Nat) (bs : List Nat) : Int :=
  if encoded e bs < 2 ^ (bits - 1) then (encoded e bs : Int)
  else (encoded e bs : Int) - 2 ^ bits

theorem foldl_eq_ofDigits (bs : List Nat) (acc : Nat) :
    bs.foldl (fun a b => a * 256 + b) acc =
      acc * 256 ^ bs.length + Nat.ofDigits 256 bs.reverse := by
  induction bs generalizing acc with
  | nil => simp
  | cons b tl ih =>
    simp only [List.foldl_cons, List.reverse_cons, List.length_cons]
    rw [ih (acc * 256 + b), Nat.ofDigits_append]
    simp only [Nat.ofDigits_singleton, List.length_reverse]
    ring

theorem assemble_eq_encoded (e : Endian) (bs : List Nat) :
    assemble e bs = encoded e bs := by
  cases e with
  | Big =>
    show fromBytesBE bs = Nat.ofDigits 256 bs.reverse
    unfold fromBytesBE
    rw [foldl_eq_ofDigits]
    simp
  | Little =>
    show fromBytesBE bs.reverse = Nat.ofDigits 256 bs
    unfold fromBytesBE
    rw [foldl_eq_ofDigits]
    simp

theorem ofDigits_lt (bs : List Nat) (h : ∀ b ∈ bs, b < 256) :
    Nat.ofDigits 256 bs < 256 ^ bs.length := by
  induction bs with
  | nil => simp [Nat.ofDigits]
  | cons b tl ih =>
    have hb : b < 256 := h b (by simp)
    have htl : Nat.ofDigits 256 tl < 256 ^ tl.length :=
      ih (fun x hx => h x (by simp [hx]))
    rw [Nat.ofDigits_cons, List.length_cons, pow_succ]
    nlinarith

theorem encoded_lt (e : Endian) (bs : List Nat) (h : ∀ b ∈ bs, b < 256) :
    encoded e bs < 256 ^ bs.length := by
  cases e with
  | Big =>
    show Nat.ofDigits 256 bs.reverse < _
    rw [← List.length_reverse]
    exact ofDigits_lt bs.reverse (fun b hb => h b (List.mem_reverse.mp hb))
  | Little => exact ofDigits_lt bs h

theorem encoded_singleton (e : Endian) (bs : List Nat) (h : bs.length ≤ 1) :
    encoded e bs = Nat.ofDigits 256 bs := by
  cases bs with
  | nil => cases e <;> rfl
  | cons b tl =>
    cases tl with
    | nil => cases e <;> simp [encoded]
    | cons x xs => simp at h

theorem encoded_lt_pow (c : Context) (e : Endian) (w : Nat)
    (h : c.pos + w ≤ c.data.length) (hvalid : ∀ b ∈ c.data, b < 256) :
    encoded e (bytesAt c w) < 2 ^ (8 * w) := by
  have hlt := encoded_lt e (bytesAt c w) (bytesAt_mem_lt c w hvalid)
  rw [bytesAt_length c w h] at hlt
  calc encoded e (bytesAt c w) < 256 ^ w := hlt
    _ = 2 ^ (8 * w) := by rw [pow_mul]; norm_num

theorem read_unsigned_of_le (c : Context) (w : Nat) (e : Endian)
    (h : c.pos + w ≤ c.data.length) :
    (c.read_unsigned w e).1 = some (encoded e (bytesAt c w)) := by
  have hle : w ≤ c.avail := by unfold Context.avail; omega
  rw [read_unsigned_fst, if_pos hle, assemble_eq_encoded]

theorem read_signed_of_le (c : Context) (w : Nat) (e : Endian)
    (h : c.pos + w ≤ c.data.length) :
    (c.read_signed w e).1 = some (signedValue e (8 * w) (bytesAt c w)) := by
  have hle : w ≤ c.avail := by unfold Context.avail; omega
  rw [read_signed_fst, if_pos hle, assemble_eq_encoded]
  unfold toSigned signedValue
  rfl

/-! Claim theorems. -/

/-- C1: for every byte buffer of length n, every SizedDefinition variant d and
every offset o, reading — represented by to_string with the Decimal display,
which every variant supports, so that success coincides with the
bounds-checked read — succeeds exactly when o + d.size ≤ n, where size is the
pure per-variant byte width 1, 2, 4, 8 or 16; in particular the read fails
for every o + d.size > n, including every o > n. -/
theorem readSucceedsIffInBounds (d : SizedDefinition) (buf : List Nat) (o : Nat) :
    (d.to_string (new_context buf o) SizedDisplay.Decimal).isSome = true ↔
      o + d.size ≤ buf.length := by
  cases d <;>
    simp only [SizedDefinition.to_string, SizedDefinition.to_string_internal,
      SizedDefinition.size, Context.read_u8, Context.read_u16, Context.read_u32,
      Context.read_u64, Context.read_u128, Context.read_i8, Context.read_i16,
      Context.read_i32, Context.read_i64, Context.read_i128, Context.read_f32,
      Context.read_f64, read_unsigned_fst, read_signed_fst] <;>
    split <;>
    simp_all [Context.avail, new_context] <;>
    omega

/-- C2: to_u64 fails for every signed variant, for U128 and for both float
variants, and to_i64 fails for every unsigned variant, for I128 and for both
float variants, regardless of the bytes present in the context. -/
theorem conversionGuards (c : Context) (e : Endian) :
    SizedDefinition.to_u64 .I8 c = none ∧
    SizedDefinition.to_u64 (.I16 e) c = none ∧
    SizedDefinition.to_u64 (.I32 e) c = none ∧
    SizedDefinition.to_u64 (.I64 e) c = none ∧
    SizedDefinition.to_u64 (.I128 e) c = none ∧
    SizedDefinition.to_u64 (.U128 e) c = none ∧
    SizedDefinition.to_u64 (.F32 e) c = none ∧
    SizedDefinition.to_u64 (.F64 e) c = none ∧
    SizedDefinition.to_i64 .U8 c = none ∧
    SizedDefinition.to_i64 (.U16 e) c = none ∧
    SizedDefinition.to_i64 (.U32 e) c = none ∧
    SizedDefinition.to_i64 (.U64 e) c = none ∧
    SizedDefinition.to_i64 (.U128 e) c = none ∧
    SizedDefinition.to_i64 (.I128 e) c = none ∧
    SizedDefinition.to_i64 (.F32 e) c = none ∧
    SizedDefinition.to_i64 (.F64 e) c = none :=
  ⟨rfl, rfl, rfl, rfl, rfl, rfl, rfl, rfl, rfl, rfl, rfl, rfl, rfl, rfl, rfl, rfl⟩

/-- C3: with at least size bytes remaining at the cursor, to_u64 on the
unsigned variants of width at most eight succeeds and returns exactly the
unsigned integer the bytes encode in the chosen endianness (the widening to
64 bits is the identity on that value, which fits its source width when the
buffer holds bytes), and to_i64 on the signed variants of width at most eight
succeeds and returns exactly the two's-complement value of the bytes, the
mathematical value sign-extension preserves. -/
theorem widenExact (c : Context) (e : Endian) (hvalid : ∀ b ∈ c.data, b < 256) :
    (c.pos + 1 ≤ c.data.length →
      SizedDefinition.to_u64 .U8 c = some (encoded e (bytesAt c 1)) ∧
      encoded e (bytesAt c 1) < 2 ^ 8) ∧
    (c.pos + 2 ≤ c.data.length →
      SizedDefinition.to_u64 (.U16 e) c = some (encoded e (bytesAt c 2)) ∧
      encoded e (bytesAt c 2) < 2 ^ 16) ∧
    (c.pos + 4 ≤ c.data.length →
      SizedDefinition.to_u64 (.U32 e) c = some (encoded e (bytesAt c 4)) ∧
      encoded e (bytesAt c 4) < 2 ^ 32) ∧
    (c.pos + 8 ≤ c.data.length →
      SizedDefinition.to_u64 (.U64 e) c = some (encoded e (bytesAt c 8)) ∧
      encoded e (bytesAt c 8) < 2 ^ 64) ∧
    (c.pos + 1 ≤ c.data.length →
      SizedDefinition.to_i64 .I8 c = some (signedValue e 8 (bytesAt c 1))) ∧
    (c.pos + 2 ≤ c.data.length →
      SizedDefinition.to_i64 (.I16 e) c = some (signedValue e 16 (bytesAt c 2))) ∧
    (c.pos + 4 ≤ c.data.length →
      SizedDefinition.to_i64 (.I32 e) c = some (signedValue e 32 (bytesAt c 4))) ∧
    (c.pos + 8 ≤ c.data.length →
      SizedDefinition.to_i64 (.I64 e) c = some (signedValue e 64 (bytesAt c 8))) := by
  have hsingle : ∀ h1 : c.pos + 1 ≤ c.data.length,
      encoded .Big (bytesAt c 1) = encoded e (bytesAt c 1) := by
    intro h1
    have hlen : (bytesAt c 1).length ≤ 1 := by rw [bytesAt_length c 1 h1]
    rw [encoded_singleton .Big _ hlen, encoded_singleton e _ hlen]
  have hsingleS : ∀ h1 : c.pos + 1 ≤ c.data.length,
      signedValue .Big 8 (bytesAt c 1) = signedValue e 8 (bytesAt c 1) := by
    intro h1
    unfold signedValue
    rw [hsingle h1]
  refine ⟨?_, ?_, ?_, ?_, ?_, ?_, ?_, ?_⟩ <;> intro h
  · refine ⟨?_, by simpa using encoded_lt_pow c e 1 h hvalid⟩
    show (c.read_u8).1 = _
    rw [Context.read_u8, read_unsigned_of_le c 1 .Big h, hsingle h]
  · exact ⟨by rw [show SizedDefinition.to_u64 (.U16 e) c = (c.read_u16 e).1 from rfl,
      Context.read_u16, read_unsigned_of_le c 2 e h],
      by simpa using encoded_lt_pow c e 2 h hvalid⟩
  · exact ⟨by rw [show SizedDefinition.to_u64 (.U32 e) c = (c.read_u32 e).1 from rfl,
      Context.read_u32, read_unsigned_of_le c 4 e h],
      by simpa using encoded_lt_pow c e 4 h hvalid⟩
  · exact ⟨by rw [show SizedDefinition.to_u64 (.U64 e) c = (c.read_u64 e).1 from rfl,
      Context.read_u64, read_unsigned_of_le c 8 e h],
      by simpa using encoded_lt_pow c e 8 h hvalid⟩
  · show (c.read_i8).1 = _
    rw [Context.read_i8, read_signed_of_le c 1 .Big h]
    rw [show (8 : Nat) * 1 = 8 from rfl, hsingleS h]
  · show (c.read_i16 e).1 = _
    rw [Context.read_i16, read_signed_of_le c 2 e h]
  · show (c.read_i32 e).1 = _
    rw [Context.read_i32, read_signed_of_le c 4 e h]
  · show (c.read_i64 e).1 = _
    rw [Context.read_i64, read_signed_of_le c 8 e h]

/-- Witness for C3 at the concrete buffer 01 02 ... reading big-endian. -/
theorem widenExact_witness :
    (∀ b ∈ (⟨[1, 2, 255], 0⟩ : Context).data, b < 256) ∧
    ((⟨[1, 2, 255], 0⟩ : Context).pos + 2 ≤ (⟨[1, 2, 255], 0⟩ : Context).data.length →
      SizedDefinition.to_u64 (.U16 .Big) ⟨[1, 2, 255], 0⟩ =
        some (encoded .Big (bytesAt ⟨[1, 2, 255], 0⟩ 2)) ∧
      encoded .Big (bytesAt ⟨[1, 2, 255], 0⟩ 2) < 2 ^ 16) :=
  ⟨by decide, (widenExact ⟨[1, 2, 255], 0⟩ .Big (by decide)).2.1⟩

/-- Statement of C4's claimed reading discipline for the 16- and 32-bit
signed variants, following the claim's words: decode the bytes with the
unsigned primitive and cast the unsigned result, so no sign extension
happens. This definition exists to be compared with to_i64 as translated
from the source. -/
def to_i64_viaUnsignedRead (self : SizedDefinition) (context : Context) : Option Int :=
  match self with
  | .I16 endian => ((context.read_u16 endian).1).map (fun u => (u : Int))
  | .I32 endian => ((context.read_u32 endian).1).map (fun u => (u : Int))
  | _ => SizedDefinition.to_i64 self context

/-- C4 counterexample: on the bytes FF FF, to_i64 for big-endian I16 returns
the sign-extended value -1, because the source reads with the signed
primitive, while the claimed unsigned-read-then-cast discipline returns
65535; the two disagree, refuting the claimed equality. -/
theorem unsignedReadClaimFalse :
    SizedDefinition.to_i64 (.I16 .Big) ⟨[255, 255], 0⟩ = some (-1) ∧
    to_i64_viaUnsignedRead (.I16 .Big) ⟨[255, 255], 0⟩ = some 65535 ∧
    ¬ SizedDefinition.to_i64 (.I16 .Big) ⟨[255, 255], 0⟩ =
        to_i64_viaUnsignedRead (.I16 .Big) ⟨[255, 255], 0⟩ := by
  refine ⟨?_, ?_, ?_⟩ <;> decide

/-- C4 amended: to_i64 on the 16- and 32-bit signed variants reads with the
signed primitive, so with enough bytes it returns the sign-extended
two's-complement value of the stored bytes — consistent with the 8- and
64-bit paths — for every stored value, including those with the top bit
set. -/
theorem signedReadsSignExtend (c : Context) (e : Endian) :
    (c.pos + 2 ≤ c.data.length →
      SizedDefinition.to_i64 (.I16 e) c = some (signedValue e 16 (bytesAt c 2))) ∧
    (c.pos + 4 ≤ c.data.length →
      SizedDefinition.to_i64 (.I32 e) c = some (signedValue e 32 (bytesAt c 4))) := by
  constructor <;> intro h
  · show (c.read_i16 e).1 = _
    rw [Context.read_i16, read_signed_of_le c 2 e h]
  · show (c.read_i32 e).1 = _
    rw [Context.read_i32, read_signed_of_le c 4 e h]

/-- Witness for the amended C4 at the bytes FF FF. -/
theorem signedReadsSignExtend_witness :
    ((⟨[255, 255], 0⟩ : Context).pos + 2 ≤ (⟨[255, 255], 0⟩ : Context).data.length) ∧
    SizedDefinition.to_i64 (.I16 .Big) ⟨[255, 255], 0⟩ =
      some (signedValue .Big 16 (bytesAt ⟨[255, 255], 0⟩ 2)) :=
  ⟨by decide, (signedReadsSignExtend ⟨[255, 255], 0⟩ .Big).1 (by decide)⟩

/-- C5: with padding on, hex rendering carries exactly two digits per byte of
the source width and binary rendering exactly eight, for every value of the
source width — the padding width is a function of the byte width alone, never
of the magnitude (the optional hex marker adds exactly two further
characters); in particular the value 0 renders as all zero digits. -/
theorem paddingExact (w u : Nat) (up pre : Bool)
    (hw : w = 1 ∨ w = 2 ∨ w = 4 ∨ w = 8 ∨ w = 16) (hu : u < 2 ^ (8 * w)) :
    (display_hex w u ⟨up, pre, true⟩).length = (if pre then 2 else 0) + 2 * w ∧
    (display_binary w u ⟨true⟩).length = 8 * w ∧
    display_hex w 0 ⟨false, false, true⟩ = String.mk (List.replicate (2 * w) '0') ∧
    display_binary w 0 ⟨true⟩ = String.mk (List.replicate (8 * w) '0') := by
  have hhex : (minimalChars 16 u).length ≤ 2 * w := by
    apply minimalChars_length_le 16 u (2 * w) (by norm_num) (by omega)
    calc u < 2 ^ (8 * w) := hu
      _ = 16 ^ (2 * w) := by
        rw [show 8 * w = 4 * (2 * w) by ring, pow_mul]
        norm_num
  have hbin : (minimalChars 2 u).length ≤ 8 * w := by
    exact minimalChars_length_le 2 u (8 * w) le_rfl (by omega) hu
  rcases hw with rfl | rfl | rfl | rfl | rfl <;>
    [skip; skip; skip; skip; skip] <;>
    (norm_num at hhex hbin
     refine ⟨?_, ?_, ?_, ?_⟩
     · cases up <;> cases pre <;>
         simp [display_hex, length_stringMk, List.length_map,
           padLeft_length _ _ hhex]
     · simp [display_binary, length_stringMk, padLeft_length _ _ hbin]
     · simp only [display_hex, Nat.reduceMul]
       rw [minimalChars_zero, padLeft_single_zero _ (by norm_num)]
       simp
     · simp only [display_binary, Nat.reduceMul]
       rw [minimalChars_zero, padLeft_single_zero _ (by norm_num)])

/-- Witness for C5 at width 4 and value 0. -/
theorem paddingExact_witness :
    (((4 : Nat) = 1 ∨ (4 : Nat) = 2 ∨ (4 : Nat) = 4 ∨ (4 : Nat) = 8 ∨ (4 : Nat) = 16) ∧
      (0 : Nat) < 2 ^ (8 * 4)) ∧
    ((display_hex 4 0 ⟨true, true, true⟩).length = (if true then 2 else 0) + 2 * 4 ∧
      (display_binary 4 0 ⟨true⟩).length = 8 * 4 ∧
      display_hex 4 0 ⟨false, false, true⟩ = String.mk (List.replicate (2 * 4) '0') ∧
      display_binary 4 0 ⟨true⟩ = String.mk (List.replicate (8 * 4) '0')) :=
  ⟨⟨by decide, by decide⟩, paddingExact 4 0 true true (by decide) (by decide)⟩

/-- Hex digit characters under the spec's padding rule: the padded rendering
zero-extends to exactly twice the byte width, the unpadded one is minimal. -/
def hexPadded (w u : Nat) (padded : Bool) : List Char :=
  if padded then padLeft (2 * w) (minimalChars 16 u) else minimalChars 16 u

/-- C6: for the byte widths of the variant set and all eight option
combinations, hex rendering is exactly the optional lowercase 0x marker
followed by the possibly padded digit string, with case conversion applied to
the digit string after padding and the marker prepended after case
conversion — so the marker is never uppercased. -/
theorem hexOptionStructure (w u : Nat) (o : HexOptions)
    (hw : w = 1 ∨ w = 2 ∨ w = 4 ∨ w = 8 ∨ w = 16) :
    display_hex w u o =
      String.mk ((if o.prefixed then ['0', 'x'] else []) ++
        (if o.uppercase then (hexPadded w u o.padded).map Char.toUpper
         else hexPadded w u o.padded)) ∧
    (o.prefixed = true → (display_hex w u o).data.take 2 = ['0', 'x']) := by
  obtain ⟨up, pre, pad⟩ := o
  rcases hw with rfl | rfl | rfl | rfl | rfl <;>
    cases pad <;> cases up <;> cases pre <;>
    simp [display_hex, hexPadded, data_stringMk]

/-- Witness for C6 at width 4 and value 0x12AB with every option on. -/
theorem hexOptionStructure_witness :
    ((4 : Nat) = 1 ∨ (4 : Nat) = 2 ∨ (4 : Nat) = 4 ∨ (4 : Nat) = 8 ∨ (4 : Nat) = 16) ∧
    (display_hex 4 4779 ⟨true, true, true⟩ =
      String.mk ((if true then ['0', 'x'] else []) ++
        (if true then (hexPadded 4 4779 true).map Char.toUpper
         else hexPadded 4 4779 true)) ∧
    (true = true → (display_hex 4 4779 ⟨true, true, true⟩).data.take 2 = ['0', 'x'])) :=
  ⟨by decide, hexOptionStructure 4 4779 ⟨true, true, true⟩ (by decide)⟩

/-- C7: with enough bytes at the offset, a float definition rejects the hex,
octal and binary display modes and succeeds under the decimal and scientific
ones; the uppercase scientific rendering is the character-wise uppercase of
the lowercase rendering, which is exactly where E replaces e. -/
theorem floatDisplayDispatch (c : Context) (e : Endian)
    (ho : HexOptions) (bo : BinaryOptions) (so : ScientificOptions) :
    (c.pos + 4 ≤ c.data.length →
      SizedDefinition.to_string (.F32 e) c (.Hex ho) = none ∧
      SizedDefinition.to_string (.F32 e) c .Octal = none ∧
      SizedDefinition.to_string (.F32 e) c (.Binary bo) = none ∧
      (SizedDefinition.to_string (.F32 e) c .Decimal).isSome = true ∧
      (SizedDefinition.to_string (.F32 e) c (.Scientific so)).isSome = true ∧
      SizedDefinition.to_string (.F32 e) c (.Scientific ⟨true⟩) =
        (SizedDefinition.to_string (.F32 e) c (.Scientific ⟨false⟩)).map strUpper) ∧
    (c.pos + 8 ≤ c.data.length →
      SizedDefinition.to_string (.F64 e) c (.Hex ho) = none ∧
      SizedDefinition.to_string (.F64 e) c .Octal = none ∧
      SizedDefinition.to_string (.F64 e) c (.Binary bo) = none ∧
      (SizedDefinition.to_string (.F64 e) c .Decimal).isSome = true ∧
      (SizedDefinition.to_string (.F64 e) c (.Scientific so)).isSome = true ∧
      SizedDefinition.to_string (.F64 e) c (.Scientific ⟨true⟩) =
        (SizedDefinition.to_string (.F64 e) c (.Scientific ⟨false⟩)).map strUpper) := by
  constructor <;> intro h
  · have hr := read_unsigned_of_le c 4 e h
    simp [SizedDefinition.to_string, SizedDefinition.to_string_internal,
      Context.read_f32, hr, display_scientific]
  · have hr := read_unsigned_of_le c 8 e h
    simp [SizedDefinition.to_string, SizedDefinition.to_string_internal,
      Context.read_f64, hr, display_scientific]

/-- Witness for C7 at an eight-byte zero buffer. -/
theorem floatDisplayDispatch_witness :
    ((⟨[0, 0, 0, 0, 0, 0, 0, 0], 0⟩ : Context).pos + 4 ≤
      (⟨[0, 0, 0, 0, 0, 0, 0, 0], 0⟩ : Context).data.length) ∧
    (SizedDefinition.to_string (.F32 .Big) ⟨[0, 0, 0, 0, 0, 0, 0, 0], 0⟩
        (.Hex ⟨false, true, true⟩) = none ∧
      SizedDefinition.to_string (.F32 .Big) ⟨[0, 0, 0, 0, 0, 0, 0, 0], 0⟩ .Octal = none ∧
      SizedDefinition.to_string (.F32 .Big) ⟨[0, 0, 0, 0, 0, 0, 0, 0], 0⟩
        (.Binary ⟨true⟩) = none ∧
      (SizedDefinition.to_string (.F32 .Big) ⟨[0, 0, 0, 0, 0, 0, 0, 0], 0⟩
        .Decimal).isSome = true ∧
      (SizedDefinition.to_string (.F32 .Big) ⟨[0, 0, 0, 0, 0, 0, 0, 0], 0⟩
        (.Scientific ⟨false⟩)).isSome = true ∧
      SizedDefinition.to_string (.F32 .Big) ⟨[0, 0, 0, 0, 0, 0, 0, 0], 0⟩
          (.Scientific ⟨true⟩) =
        (SizedDefinition.to_string (.F32 .Big) ⟨[0, 0, 0, 0, 0, 0, 0, 0], 0⟩
          (.Scientific ⟨false⟩)).map strUpper) :=
  ⟨by decide,
    (floatDisplayDispatch ⟨[0, 0, 0, 0, 0, 0, 0, 0], 0⟩ .Big
      ⟨false, true, true⟩ ⟨true⟩ ⟨false⟩).1 (by decide)⟩

/-- C8: read_bytes succeeds with exactly the k bytes starting at the position
precisely when they are available (and then returns that many bytes), fails
otherwise, and a read of zero bytes succeeds with the empty vector at every
position, including positions beyond the end of the buffer. -/
theorem readBytesExactOrFail (buf : List Nat) (p k : Nat) :
    (Context.read_bytes ⟨buf, p⟩ k).1 =
      (if p + k ≤ buf.length ∨ k = 0 then some ((buf.drop p).take k) else none) ∧
    (p + k ≤ buf.length → ((buf.drop p).take k).length = k) ∧
    (Context.read_bytes ⟨buf, p⟩ 0).1 = some [] := by
  refine ⟨?_, ?_, ?_⟩
  · unfold Context.read_bytes advanceRead Context.avail bytesAt
    by_cases h : k ≤ buf.length - p
    · rw [if_pos h, if_pos (by omega)]
    · rw [if_neg h, if_neg (by omega)]
  · intro h
    simp only [List.length_take, List.length_drop]
    omega
  · unfold Context.read_bytes advanceRead Context.avail bytesAt
    simp

/-- Witness for C8 on a four-byte buffer at position 1 reading two bytes. -/
theorem readBytesExactOrFail_witness :
    ((1 : Nat) + 2 ≤ ([10, 20, 30, 40] : List Nat).length) ∧
    ((([10, 20, 30, 40] : List Nat).drop 1).take 2).length = 2 :=
  ⟨by decide, (readBytesExactOrFail [10, 20, 30, 40] 1 2).2.1 (by decide)⟩

/-- C9: no read mutates the cursor or the buffer: every Context read hands
back the receiver unchanged (same buffer, same position), so repeated
identical calls return equal results, and the definition-level operations
applied after a read observe the very same cursor. -/
theorem readsPreserveCursor (c : Context) (e : Endian) (k : Nat)
    (d : SizedDefinition) (display : SizedDisplay) :
    (c.read_u8).2 = c ∧ (c.read_u16 e).2 = c ∧ (c.read_u32 e).2 = c ∧
    (c.read_u64 e).2 = c ∧ (c.read_u128 e).2 = c ∧
    (c.read_i8).2 = c ∧ (c.read_i16 e).2 = c ∧ (c.read_i32 e).2 = c ∧
    (c.read_i64 e).2 = c ∧ (c.read_i128 e).2 = c ∧
    (c.read_f32 e).2 = c ∧ (c.read_f64 e).2 = c ∧ (c.read_bytes k).2 = c ∧
    ((c.read_u8).2).position = c.position ∧ ((c.read_bytes k).2).data = c.data ∧
    ((c.read_u8).2.read_u8).1 = (c.read_u8).1 ∧
    (((c.read_bytes k).2).read_bytes k).1 = (c.read_bytes k).1 ∧
    SizedDefinition.to_string d ((c.read_u64 e).2) display =
      SizedDefinition.to_string d c display ∧
    SizedDefinition.to_u64 d ((c.read_u8).2) = SizedDefinition.to_u64 d c ∧
    SizedDefinition.to_i64 d ((c.read_i8).2) = SizedDefinition.to_i64 d c := by
  refine ⟨read_unsigned_snd c 1 .Big, read_unsigned_snd c 2 e, read_unsigned_snd c 4 e,
    read_unsigned_snd c 8 e, read_unsigned_snd c 16 e,
    read_signed_snd c 1 .Big, read_signed_snd c 2 e, read_signed_snd c 4 e,
    read_signed_snd c 8 e, read_signed_snd c 16 e,
    read_unsigned_snd c 4 e, read_unsigned_snd c 8 e, read_bytes_snd c k,
    ?_, ?_, ?_, ?_, ?_, ?_, ?_⟩ <;>
    simp only [Context.read_u8, Context.read_u64, Context.read_i8,
      read_unsigned_snd, read_signed_snd, read_bytes_snd]

theorem hexCore_cases (w u : Nat) (p : Bool) :
    ∃ k, (match p, 2 * w with
      | false, _ => minimalChars 16 u
      | true, 2 => padLeft 2 (minimalChars 16 u)
      | true, 4 => padLeft 4 (minimalChars 16 u)
      | true, 8 => padLeft 8 (minimalChars 16 u)
      | true, 16 => padLeft 16 (minimalChars 16 u)
      | true, 32 => padLeft 32 (minimalChars 16 u)
      | true, _ => minimalChars 16 u) = padLeft k (minimalChars 16 u) := by
  split
  · exact ⟨0, (padLeft_zero _).symm⟩
  · exact ⟨2, rfl⟩
  · exact ⟨4, rfl⟩
  · exact ⟨8, rfl⟩
  · exact ⟨16, rfl⟩
  · exact ⟨32, rfl⟩
  · exact ⟨0, (padLeft_zero _).symm⟩

theorem binCore_cases (w u : Nat) (p : Bool) :
    ∃ k, (match p, 8 * w with
      | false, _ => minimalChars 2 u
      | true, 8 => padLeft 8 (minimalChars 2 u)
      | true, 16 => padLeft 16 (minimalChars 2 u)
      | true, 32 => padLeft 32 (minimalChars 2 u)
      | true, 64 => padLeft 64 (minimalChars 2 u)
      | true, 128 => padLeft 128 (minimalChars 2 u)
      | true, _ => minimalChars 2 u) = padLeft k (minimalChars 2 u) := by
  split
  · exact ⟨0, (padLeft_zero _).symm⟩
  · exact ⟨8, rfl⟩
  · exact ⟨16, rfl⟩
  · exact ⟨32, rfl⟩
  · exact ⟨64, rfl⟩
  · exact ⟨128, rfl⟩
  · exact ⟨0, (padLeft_zero _).symm⟩

theorem noMinus_display_hex (w u : Nat) (o : HexOptions) :
    '-' ∉ (display_hex w u o).data := by
  obtain ⟨up, pre, pad⟩ := o
  obtain ⟨k, hk⟩ := hexCore_cases w u pad
  intro hmem
  simp only [display_hex, hk, data_stringMk] at hmem
  have hcore := noMinus_padCore 16 k u (by norm_num) le_rfl
  cases pre <;> cases up <;> (try simp at hmem) <;>
    first
      | exact (hcore _ hmem).1 rfl
      | (obtain ⟨ch, hch, hupper⟩ := hmem
         exact (hcore ch hch).2 hupper)

theorem noMinus_display_binary (w u : Nat) (o : BinaryOptions) :
    '-' ∉ (display_binary w u o).data := by
  obtain ⟨pad⟩ := o
  obtain ⟨k, hk⟩ := binCore_cases w u pad
  intro hmem
  simp only [display_binary, hk, data_stringMk] at hmem
  exact (noMinus_padCore 2 k u le_rfl (by norm_num) _ hmem).1 rfl

theorem noMinus_display_octal (u : Nat) : '-' ∉ (display_octal u).data := by
  intro hmem
  simp only [display_octal, data_stringMk] at hmem
  rcases mem_minimalChars 8 u (by norm_num) (by norm_num) _ hmem with ⟨d, hd, hch⟩
  exact (digitChar_props d hd).1 hch.symm

theorem display_decimal_neg (v : Int) (hv : v < 0) :
    (display_decimal v).data.head? = some '-' := by
  unfold display_decimal
  rw [if_pos hv]
  rfl

/-- C10: a negative stored value of a signed variant displays its
two's-complement bit pattern of the source width with no minus sign under the
hex, octal and binary modes — concretely, I8 read from the byte FF renders
ff in unpadded hex, 11111111 in padded binary and 377 in octal — and only the
decimal rendering (whose exponential sibling shares the sign handling)
carries a leading minus. The minus-freedom of the bit-pattern modes holds for
every variant and every successful rendering. -/
theorem signedBitPattern (c : Context) (e : Endian)
    (ho : HexOptions) (bo : BinaryOptions) :
    SizedDefinition.to_string .I8 ⟨[255], 0⟩ (.Hex ⟨false, false, false⟩) = some "ff" ∧
    SizedDefinition.to_string .I8 ⟨[255], 0⟩ (.Binary ⟨true⟩) = some "11111111" ∧
    SizedDefinition.to_string .I8 ⟨[255], 0⟩ .Octal = some "377" ∧
    SizedDefinition.to_string .I8 ⟨[255], 0⟩ .Decimal = some "-1" ∧
    (∀ d s, SizedDefinition.to_string d c (.Hex ho) = some s → '-' ∉ s.data) ∧
    (∀ d s, SizedDefinition.to_string d c .Octal = some s → '-' ∉ s.data) ∧
    (∀ d s, SizedDefinition.to_string d c (.Binary bo) = some s → '-' ∉ s.data) ∧
    (∀ v, (c.read_i8).1 = some v → v < 0 →
      SizedDefinition.to_string .I8 c .Decimal = some (display_decimal v) ∧
        (display_decimal v).data.head? = some '-') ∧
    (∀ v, (c.read_i16 e).1 = some v → v < 0 →
      SizedDefinition.to_string (.I16 e) c .Decimal = some (display_decimal v) ∧
        (display_decimal v).data.head? = some '-') ∧
    (∀ v, (c.read_i32 e).1 = some v → v < 0 →
      SizedDefinition.to_string (.I32 e) c .Decimal = some (display_decimal v) ∧
        (display_decimal v).data.head? = some '-') ∧
    (∀ v, (c.read_i64 e).1 = some v → v < 0 →
      SizedDefinition.to_string (.I64 e) c .Decimal = some (display_decimal v) ∧
        (display_decimal v).data.head? = some '-') ∧
    (∀ v, (c.read_i128 e).1 = some v → v < 0 →
      SizedDefinition.to_string (.I128 e) c .Decimal = some (display_decimal v) ∧
        (display_decimal v).data.head? = some '-') := by
  refine ⟨by decide, by decide, by decide, by decide, ?_, ?_, ?_, ?_, ?_, ?_, ?_, ?_⟩
  · intro d s hs
    cases d <;>
      simp only [SizedDefinition.to_string, SizedDefinition.to_string_internal] at hs <;>
      split at hs <;> cases hs <;> apply noMinus_display_hex
  · intro d s hs
    cases d <;>
      simp only [SizedDefinition.to_string, SizedDefinition.to_string_internal] at hs <;>
      split at hs <;> cases hs <;> apply noMinus_display_octal
  · intro d s hs
    cases d <;>
      simp only [SizedDefinition.to_string, SizedDefinition.to_string_internal] at hs <;>
      split at hs <;> cases hs <;> apply noMinus_display_binary
  · intro v hv hneg
    refine ⟨?_, display_decimal_neg v hneg⟩
    simp [SizedDefinition.to_string, SizedDefinition.to_string_internal, hv]
  · intro v hv hneg
    refine ⟨?_, display_decimal_neg v hneg⟩
    simp [SizedDefinition.to_string, SizedDefinition.to_string_internal, hv]
  · intro v hv hneg
    refine ⟨?_, display_decimal_neg v hneg⟩
    simp [SizedDefinition.to_string, SizedDefinition.to_string_internal, hv]
  · intro v hv hneg
    refine ⟨?_, display_decimal_neg v hneg⟩
    simp [SizedDefinition.to_string, SizedDefinition.to_string_internal, hv]
  · intro v hv hneg
    refine ⟨?_, display_decimal_neg v hneg⟩
    simp [SizedDefinition.to_string, SizedDefinition.to_string_internal, hv]

/-- Witness for C10: the inner hypotheses discharged on the byte FF — the
hex rendering ff of I8 holds no minus, and the negative decimal value -1
renders with a leading minus. -/
theorem signedBitPattern_witness :
    (SizedDefinition.to_string .I8 ⟨[255], 0⟩ (.Hex ⟨false, false, false⟩) =
        some "ff" ∧ '-' ∉ ("ff" : String).data) ∧
    (((⟨[255], 0⟩ : Context).read_i8).1 = some (-1) ∧ (-1 : Int) < 0 ∧
      (SizedDefinition.to_string .I8 ⟨[255], 0⟩ .Decimal =
          some (display_decimal (-1)) ∧
        (display_decimal (-1)).data.head? = some '-')) :=
  ⟨⟨by decide,
    (signedBitPattern ⟨[255], 0⟩ .Big ⟨false, false, false⟩ ⟨true⟩).2.2.2.2.1
      .I8 "ff" (by decide)⟩,
    ⟨by decide, by decide,
      (signedBitPattern ⟨[255], 0⟩ .Big ⟨false, false, false⟩
        ⟨true⟩).2.2.2.2.2.2.2.1 (-1) (by decide) (by decide)⟩⟩

end SizedNumber
